import Mathlib

/-!
Verification of the mailsweep rule engine, batch mutator, pagination fetcher
and token lifecycle manager, shallowly embedded from the Rust sources
(src/rules.rs, src/commands/clean.rs, src/auth.rs, src/graph_client.rs).
-/

set_option maxHeartbeats 1000000

namespace Mailsweep

/-- Strings are modelled as lists of characters. -/
abbrev Str := List Char

/-- Rust str::to_lowercase, modelled as characterwise lowercasing
(locale-naive, as in the source). -/
def to_lowercase (s : Str) : Str := s.map Char.toLower

/-- Does pat occur at the start of hay?  Auxiliary for substring search. -/
def startsWith : Str → Str → Bool
  | [], _ => true
  | _ :: _, [] => false
  | a :: as, b :: bs => a == b && startsWith as bs

/-- Rust str::contains: pat occurs contiguously somewhere inside hay. -/
def containsSub (pat : Str) : Str → Bool
  | [] => pat.isEmpty
  | b :: t => startsWith pat (b :: t) || containsSub pat t

/-- Rust str::trim().is_empty(): every character is whitespace. -/
def trimEmpty (s : Str) : Bool := s.all Char.isWhitespace

/-- src/rules.rs: PatternSet is a wrapper around Vec of String. -/
structure PatternSet where
  patterns : List Str
deriving DecidableEq, Repr

/-- src/rules.rs PatternSet::new. -/
def PatternSet.new : PatternSet := ⟨[]⟩

/-- src/rules.rs PatternSet::with_patterns. -/
def PatternSet.with_patterns (ps : List Str) : PatternSet := ⟨ps⟩

/-- src/rules.rs PatternSet::is_empty: the vector is empty, or every entry
trims to the empty string. -/
def PatternSet.is_empty (ps : PatternSet) : Bool :=
  ps.patterns.isEmpty || ps.patterns.all trimEmpty

/-- src/rules.rs PatternSet::to_vec: the raw vector of patterns. -/
def PatternSet.to_vec (ps : PatternSet) : List Str := ps.patterns

/-- src/rules.rs RuleAction. -/
inductive RuleAction where
  | Archive
  | Delete
  | MarkRead
deriving DecidableEq, Repr

/-- src/rules.rs Rule. -/
structure Rule where
  name : Str
  sender_contains : PatternSet
  subject_contains : PatternSet
  action : RuleAction
deriving DecidableEq, Repr

/-- The pattern loops in Rule::matches: break at the first pattern whose
lowercasing occurs inside the lowercased input. -/
def anyPatternMatches (pats : List Str) (input : Str) : Bool :=
  pats.any fun p => containsSub (to_lowercase p) (to_lowercase input)

/-- src/rules.rs Rule::matches (identical logic is inlined in
src/commands/clean.rs CleanCommand::execute). -/
def Rule.matches (r : Rule) (sender subject : Str) : Bool :=
  let sender_patterns := r.sender_contains.to_vec
  let subject_patterns := r.subject_contains.to_vec
  if sender_patterns.isEmpty && subject_patterns.isEmpty then
    false
  else if !sender_patterns.isEmpty && !subject_patterns.isEmpty then
    anyPatternMatches sender_patterns sender && anyPatternMatches subject_patterns subject
  else if !sender_patterns.isEmpty then
    anyPatternMatches sender_patterns sender
  else if !subject_patterns.isEmpty then
    anyPatternMatches subject_patterns subject
  else
    false

/-- A sender (resp. subject) disjunct holds: some pattern, lowercased, is a
substring of the lowercased input. -/
def dimensionHit (pats : List Str) (input : Str) : Prop :=
  ∃ p ∈ pats, containsSub (to_lowercase p) (to_lowercase input) = true

lemma anyPatternMatches_eq_true (pats : List Str) (input : Str) :
    anyPatternMatches pats input = true ↔ dimensionHit pats input := by
  simp [anyPatternMatches, dimensionHit, List.any_eq_true]

/-- C1: for a rule with both pattern lists non-empty, matches holds iff some
sender pattern hits the sender AND some subject pattern hits the subject
(lowercased substring tests); with only one list populated only that
disjunction is required; with neither populated the rule never matches. -/
theorem c1_matches_and_or_semantics (r : Rule) (sender subject : Str) :
    (r.sender_contains.to_vec ≠ [] → r.subject_contains.to_vec ≠ [] →
      (r.matches sender subject = true ↔
        dimensionHit r.sender_contains.to_vec sender ∧
        dimensionHit r.subject_contains.to_vec subject))
    ∧ (r.sender_contains.to_vec ≠ [] → r.subject_contains.to_vec = [] →
      (r.matches sender subject = true ↔ dimensionHit r.sender_contains.to_vec sender))
    ∧ (r.sender_contains.to_vec = [] → r.subject_contains.to_vec ≠ [] →
      (r.matches sender subject = true ↔ dimensionHit r.subject_contains.to_vec subject))
    ∧ (r.sender_contains.to_vec = [] → r.subject_contains.to_vec = [] →
      r.matches sender subject = false) := by
  refine ⟨?_, ?_, ?_, ?_⟩ <;> intro h1 h2 <;>
    simp [Rule.matches, h1, h2, List.isEmpty_iff, anyPatternMatches_eq_true]

/-- Witness for C1 at a concrete rule with both dimensions populated. -/
theorem c1_matches_and_or_semantics_witness :
    ({ name := "combined".toList
       sender_contains := ⟨["newsletter".toList]⟩
       subject_contains := ⟨["updates".toList]⟩
       action := RuleAction.Delete : Rule }).matches
      "NEWSLETTER@example.com".toList "Weekly UPDATES".toList = true := by
  exact ((c1_matches_and_or_semantics _ _ _).1 (by decide) (by decide)).mpr
    ⟨⟨"newsletter".toList, by decide, by decide⟩, ⟨"updates".toList, by decide, by decide⟩⟩

/-- C8: for a rule with sender patterns only (raw subject pattern list empty),
matches is independent of the subject content. -/
theorem c8_sender_only_independent_of_subject (r : Rule)
    (sender subject1 subject2 : Str) :
    r.sender_contains.to_vec ≠ [] → r.subject_contains.to_vec = [] →
    r.matches sender subject1 = r.matches sender subject2 := by
  intro h1 h2
  simp [Rule.matches, h1, h2, List.isEmpty_iff]

/-- Witness for C8: a concrete sender-only rule ignores the subject. -/
theorem c8_sender_only_independent_of_subject_witness :
    ({ name := "sender rule".toList
       sender_contains := ⟨["example.com".toList]⟩
       subject_contains := ⟨[]⟩
       action := RuleAction.Archive : Rule }).matches
        "user@example.com".toList "Any subject".toList =
      ({ name := "sender rule".toList
         sender_contains := ⟨["example.com".toList]⟩
         subject_contains := ⟨[]⟩
         action := RuleAction.Archive : Rule }).matches
        "user@example.com".toList "Completely different".toList :=
  c8_sender_only_independent_of_subject _ _ _ _ (by decide) (by decide)

/-- src/rules.rs Rules::validate reports two kinds of per-rule problems,
modelled as constructors carrying the data interpolated into the formatted
error strings. -/
inductive ValidationError where
  | nameEmpty (index : Nat)
  | noPatterns (name : Str)
deriving DecidableEq, Repr

/-- src/rules.rs Rules::validate: for each rule (1-based index), report an
empty name and/or the absence of any (non-whitespace) pattern. -/
def validateRules (items : List Rule) : List ValidationError :=
  items.enum.flatMap fun p =>
    (if trimEmpty p.2.name then [ValidationError.nameEmpty (p.1 + 1)] else []) ++
    (if p.2.sender_contains.is_empty && p.2.subject_contains.is_empty then
      [ValidationError.noPatterns p.2.name] else [])

lemma containsSub_nil (hay : Str) : containsSub [] hay = true := by
  induction hay with
  | nil => rfl
  | cons b t ih => simp [containsSub, startsWith]

/-- C9: a rule whose only sender pattern is the empty string is flagged by
validate() as having no patterns (PatternSet::is_empty trims entries), yet
Rule::matches tests raw-vector emptiness and the empty string is a substring
of everything, so the rule matches every message. -/
theorem c9_invalid_rule_still_matches_everything :
    ∃ r : Rule, ValidationError.noPatterns r.name ∈ validateRules [r] ∧
      ∀ sender subject, r.matches sender subject = true := by
  refine ⟨{ name := "match all".toList
            sender_contains := ⟨[[]]⟩
            subject_contains := ⟨[]⟩
            action := RuleAction.Archive }, by decide, ?_⟩
  intro sender subject
  show anyPatternMatches [[]] sender = true
  simp [anyPatternMatches, to_lowercase, containsSub_nil]

/-- src/commands/clean.rs Message (the matched_rule/action fields that the
rule loop fills in are modelled by the Message × Rule pairs that
matchedMessages produces). -/
structure Message where
  id : Str
  subject : Str
  sender : Str
  received_date : Int
deriving DecidableEq, Repr

/-- A message with empty envelope fields, for concrete evaluations. -/
def msg0 : Message := { id := [], subject := [], sender := [], received_date := 0 }

/-- A concrete message with id 1, for concrete evaluations. -/
def msgA : Message := { id := "1".toList, subject := [], sender := [], received_date := 0 }

/-- A concrete message with id 2, for concrete evaluations. -/
def msgB : Message := { id := "2".toList, subject := [], sender := [], received_date := 0 }

/-- The per-message rule loop of CleanCommand::execute: scan the rules in
declared order and stop at the first whose matches() holds. -/
def findMatch : List Rule → Str → Str → Option Rule
  | [], _, _ => none
  | r :: rest, sender, subject =>
    if r.matches sender subject then some r else findMatch rest sender subject

/-- CleanCommand::execute keeps exactly the messages whose matched_rule was
set, paired with the rule that matched them. -/
def matchedMessages (rules : List Rule) (msgs : List Message) :
    List (Message × Rule) :=
  msgs.filterMap fun m => (findMatch rules m.sender m.subject).map fun r => (m, r)

lemma findMatch_eq_find? (rules : List Rule) (sender subject : Str) :
    findMatch rules sender subject =
      rules.find? fun r => r.matches sender subject := by
  induction rules with
  | nil => rfl
  | cons r rest ih => by_cases h : r.matches sender subject = true <;>
      simp [findMatch, List.find?, h, ih]

/-- C2: a message/rule pair survives evaluation iff the message is in the
input and the rule is the one findMatch returns; findMatch returns some r
iff r matches and sits at an index all of whose predecessors fail to match
(so evaluation picks the earliest-declared matching rule, never a later
one); findMatch returns none iff no rule matches, and such messages are
dropped by matchedMessages. -/
theorem c2_first_match_wins (rules : List Rule) (msgs : List Message) :
    (∀ m r, (m, r) ∈ matchedMessages rules msgs ↔
        m ∈ msgs ∧ findMatch rules m.sender m.subject = some r)
    ∧ (∀ sender subject r, findMatch rules sender subject = some r ↔
        r.matches sender subject = true ∧
        ∃ i, ∃ h : i < rules.length, rules.get ⟨i, h⟩ = r ∧
          ∀ j, (hj : j < i) →
            (rules.get ⟨j, Nat.lt_trans hj h⟩).matches sender subject = false)
    ∧ (∀ sender subject, findMatch rules sender subject = none ↔
        ∀ r ∈ rules, r.matches sender subject = false) := by
  refine ⟨?_, ?_, ?_⟩
  · intro m r
    simp only [matchedMessages, List.mem_filterMap, Option.map_eq_some']
    constructor
    · rintro ⟨a, ha, x, hx, hax⟩
      cases hax
      exact ⟨ha, hx⟩
    · rintro ⟨hm, hf⟩
      exact ⟨m, hm, r, hf, rfl⟩
  · intro sender subject r
    rw [findMatch_eq_find?, List.find?_eq_some_iff_getElem]
    constructor
    · rintro ⟨hp, i, h, hget, hprev⟩
      refine ⟨hp, i, h, by simpa using hget, fun j hj => ?_⟩
      have := hprev j hj
      simpa using this
    · rintro ⟨hp, i, h, hget, hprev⟩
      refine ⟨hp, i, h, by simpa using hget, fun j hj => ?_⟩
      simpa using hprev j hj
  · intro sender subject
    rw [findMatch_eq_find?, List.find?_eq_none]
    simp

/-- Witness for C2: with two rules that both match, evaluation associates the
message with the first rule. -/
theorem c2_first_match_wins_witness :
    (({ id := "m1".toList, subject := "hello".toList,
        sender := "a@b.c".toList, received_date := 0 : Message },
      { name := "first".toList, sender_contains := ⟨["a@b".toList]⟩,
        subject_contains := ⟨[]⟩, action := RuleAction.Archive : Rule }) ∈
      matchedMessages
        [{ name := "first".toList, sender_contains := ⟨["a@b".toList]⟩,
           subject_contains := ⟨[]⟩, action := RuleAction.Archive },
         { name := "second".toList, sender_contains := ⟨["a@b".toList]⟩,
           subject_contains := ⟨[]⟩, action := RuleAction.Delete }]
        [{ id := "m1".toList, subject := "hello".toList,
           sender := "a@b.c".toList, received_date := 0 }]) :=
  ((c2_first_match_wins _ _).1 _ _).mpr ⟨by decide, by decide⟩

/-- src/commands/clean.rs BatchOperation (same shape in src/graph_client.rs). -/
inductive BatchOperation where
  | Archive
  | Delete
  | MarkRead
deriving DecidableEq, Repr

/-- The JSON bodies attached to batch sub-requests in the source:
destinationArchive models the destinationId archive document of the move
request, isReadTrue models the isRead true document of the patch request. -/
inductive SubRequestBody where
  | destinationArchive
  | isReadTrue
deriving DecidableEq, Repr

/-- One entry of the requests array of a batch envelope (the source formats
id as a decimal string; the numeric value is kept here). -/
structure SubRequest where
  id : Nat
  method : Str
  url : Str
  body : Option SubRequestBody
deriving DecidableEq, Repr

/-- The per-message request construction inside process_messages_batch, with
1-based request ids. -/
def buildSubRequest (operation : BatchOperation) (i : Nat) (m : Message) :
    SubRequest :=
  match operation with
  | BatchOperation.Archive =>
      { id := i + 1, method := "POST".toList,
        url := "/me/messages/".toList ++ m.id ++ "/move".toList,
        body := some SubRequestBody.destinationArchive }
  | BatchOperation.Delete =>
      { id := i + 1, method := "DELETE".toList,
        url := "/me/messages/".toList ++ m.id, body := none }
  | BatchOperation.MarkRead =>
      { id := i + 1, method := "PATCH".toList,
        url := "/me/messages/".toList ++ m.id,
        body := some SubRequestBody.isReadTrue }

/-- The requests array built for one chunk (the enumerate loop). -/
def buildBatchRequests (operation : BatchOperation) (chunk : List Message) :
    List SubRequest :=
  chunk.enum.map fun p => buildSubRequest operation p.1 p.2

/-- MS Graph allows up to 20 requests in a single batch (BATCH_SIZE). -/
def BATCH_SIZE : Nat := 20

/-- Rust slice::chunks with chunk size BATCH_SIZE; the fuel argument only
forces structural termination and is initialised to the list length, which
the recursion never exhausts. -/
def chunksOfAux {α : Type} : Nat → List α → List (List α)
  | 0, _ => []
  | _ + 1, [] => []
  | fuel + 1, x :: xs =>
      ((x :: xs).take BATCH_SIZE) :: chunksOfAux fuel ((x :: xs).drop BATCH_SIZE)

/-- messages.chunks(BATCH_SIZE) from process_messages_batch. -/
def chunksOf20 {α : Type} (l : List α) : List (List α) := chunksOfAux l.length l

/-- The outcome of one batch HTTP call: transportFail models a non-success
status on the whole batch request (or an unparsable batch document, which
the source also bails on); ok carries the status codes of the per-item
sub-responses. -/
inductive ChunkResult where
  | transportFail
  | ok (statuses : List Nat)
deriving DecidableEq, Repr

/-- Rust (200..300).contains(status). -/
def inSuccessRange (status : Nat) : Bool := decide (200 ≤ status ∧ status < 300)

/-- The sub-response counting loop: a 2xx status increments succeeded,
anything else increments failed. -/
def countStatuses (statuses : List Nat) : Nat × Nat :=
  statuses.foldl
    (fun acc st =>
      if inSuccessRange st then (acc.1 + 1, acc.2) else (acc.1, acc.2 + 1))
    (0, 0)

/-- The chunk loop of process_messages_batch: one batch call per chunk (its
outcome given by env, indexed by chunk number); a transport-level failure
bails out of the whole call, otherwise the per-item counts accumulate into
the running (succeeded, failed) totals. -/
def runBatchChunks (env : Nat → ChunkResult) :
    Nat → List (List Message) → Nat → Nat → Except Unit (Nat × Nat)
  | _, [], succeeded, failed => Except.ok (succeeded, failed)
  | i, _ :: rest, succeeded, failed =>
    match env i with
    | ChunkResult.transportFail => Except.error ()
    | ChunkResult.ok statuses =>
        runBatchChunks env (i + 1) rest
          (succeeded + (countStatuses statuses).1)
          (failed + (countStatuses statuses).2)

/-- src/commands/clean.rs process_messages_batch (the same code lives in
src/graph_client.rs GraphClient::process_messages_batch). -/
def process_messages_batch (env : Nat → ChunkResult) (messages : List Message) :
    Except Unit (Nat × Nat) :=
  runBatchChunks env 0 (chunksOf20 messages) 0 0

/-- Succeeded count a group result contributes to the run summary. -/
def groupSucceeded : Except Unit (Nat × Nat) → Nat
  | Except.ok sf => sf.1
  | Except.error _ => 0

/-- Failure count a group result contributes to the run summary (an erroring
group counts as one failure). -/
def groupFailed : Except Unit (Nat × Nat) → Nat
  | Except.ok sf => sf.2
  | Except.error _ => 1

/-- The result-collection loop of CleanCommand::execute over the per-action
batch results: Ok(s, f) adds s to its action count and f to the failure
total; Err adds 1 to the failure total. -/
def aggregate (results : List (Except Unit (Nat × Nat))) : Nat × Nat :=
  results.foldl
    (fun acc r =>
      match r with
      | Except.ok sf => (acc.1 + sf.1, acc.2 + sf.2)
      | Except.error _ => (acc.1, acc.2 + 1))
    (0, 0)

lemma chunksOfAux_join {α : Type} :
    ∀ (fuel : Nat) (l : List α), l.length ≤ fuel →
      (chunksOfAux fuel l).flatten = l := by
  intro fuel
  induction fuel with
  | zero =>
    intro l hl
    have : l = [] := List.length_eq_zero.mp (Nat.le_zero.mp hl)
    subst this
    rfl
  | succ fuel ih =>
    intro l hl
    cases l with
    | nil => rfl
    | cons x xs =>
      have hlen : ((x :: xs).drop BATCH_SIZE).length ≤ fuel := by
        simp only [List.length_drop, BATCH_SIZE, List.length_cons]
        simp only [List.length_cons] at hl
        omega
      simp only [chunksOfAux, List.flatten_cons, ih _ hlen, List.take_append_drop]

lemma chunksOfAux_length {α : Type} :
    ∀ (fuel : Nat) (l : List α), l.length ≤ fuel →
      (chunksOfAux fuel l).length = (l.length + 19) / 20 := by
  intro fuel
  induction fuel with
  | zero =>
    intro l hl
    have : l = [] := List.length_eq_zero.mp (Nat.le_zero.mp hl)
    subst this
    simp [chunksOfAux]
  | succ fuel ih =>
    intro l hl
    cases l with
    | nil => simp [chunksOfAux]
    | cons x xs =>
      have hlen : ((x :: xs).drop BATCH_SIZE).length ≤ fuel := by
        simp only [List.length_drop, BATCH_SIZE, List.length_cons]
        simp only [List.length_cons] at hl
        omega
      simp only [chunksOfAux, List.length_cons, ih _ hlen, List.length_drop]
      simp only [BATCH_SIZE, List.length_cons]
      omega

lemma chunksOfAux_mem_length {α : Type} :
    ∀ (fuel : Nat) (l : List α) (c : List α), c ∈ chunksOfAux fuel l →
      c.length ≤ BATCH_SIZE := by
  intro fuel
  induction fuel with
  | zero => intro l c hc; simp [chunksOfAux] at hc
  | succ fuel ih =>
    intro l c hc
    cases l with
    | nil => simp [chunksOfAux] at hc
    | cons x xs =>
      simp only [chunksOfAux, List.mem_cons] at hc
      rcases hc with h | h
      · subst h
        simp [List.length_take]
      · exact ih _ _ h

lemma countStatuses_foldl (statuses : List Nat) : ∀ (a b : Nat),
    statuses.foldl
      (fun acc st =>
        if inSuccessRange st then (acc.1 + 1, acc.2) else (acc.1, acc.2 + 1))
      (a, b) =
    (a + (statuses.filter inSuccessRange).length,
     b + (statuses.filter fun st => !inSuccessRange st).length) := by
  induction statuses with
  | nil => intro a b; simp
  | cons st rest ih =>
    intro a b
    by_cases h : inSuccessRange st = true <;>
      simp [List.foldl_cons, List.filter_cons, h, ih, Nat.add_assoc, Nat.add_comm 1]

lemma countStatuses_eq (statuses : List Nat) :
    countStatuses statuses =
      ((statuses.filter inSuccessRange).length,
       (statuses.filter fun st => !inSuccessRange st).length) := by
  simpa using countStatuses_foldl statuses 0 0

lemma countStatuses_sum (statuses : List Nat) :
    (countStatuses statuses).1 + (countStatuses statuses).2 = statuses.length := by
  rw [countStatuses_eq]
  simpa using (List.length_eq_length_filter_add (l := statuses) inSuccessRange).symm

lemma runBatchChunks_error (env : Nat → ChunkResult) :
    ∀ (cs : List (List Message)) (i s f : Nat),
      (∃ k, k < cs.length ∧ env (i + k) = ChunkResult.transportFail) →
      runBatchChunks env i cs s f = Except.error () := by
  intro cs
  induction cs with
  | nil =>
    rintro i s f ⟨k, hk, -⟩
    simp at hk
  | cons c rest ih =>
    rintro i s f ⟨k, hk, hfail⟩
    cases hE : env i with
    | transportFail => simp [runBatchChunks, hE]
    | ok statuses =>
      have hk0 : k ≠ 0 := by
        intro h
        subst h
        rw [Nat.add_zero] at hfail
        rw [hE] at hfail
        exact ChunkResult.noConfusion hfail
      obtain ⟨k1, rfl⟩ : ∃ k1, k = k1 + 1 :=
        ⟨k - 1, by omega⟩
      simp only [runBatchChunks, hE]
      refine ih (i + 1) _ _ ⟨k1, ?_, ?_⟩
      · simp only [List.length_cons] at hk
        omega
      · have : i + 1 + k1 = i + (k1 + 1) := by omega
        rw [this]
        exact hfail

lemma runBatchChunks_ok (env : Nat → ChunkResult) :
    ∀ (cs : List (List Message)) (i s f : Nat),
      (∀ k, (h : k < cs.length) → ∃ statuses,
          env (i + k) = ChunkResult.ok statuses ∧
          statuses.length = (cs.get ⟨k, h⟩).length) →
      ∃ s2 f2, runBatchChunks env i cs s f = Except.ok (s2, f2) ∧
        s2 + f2 = s + f + (cs.map List.length).sum := by
  intro cs
  induction cs with
  | nil =>
    intro i s f _
    exact ⟨s, f, rfl, by simp⟩
  | cons c rest ih =>
    intro i s f henv
    obtain ⟨statuses, hE, hlen⟩ := henv 0 (by simp)
    rw [Nat.add_zero] at hE
    simp only [runBatchChunks, hE]
    obtain ⟨s2, f2, hrun, hsum⟩ := ih (i + 1)
      (s + (countStatuses statuses).1) (f + (countStatuses statuses).2)
      (fun k hk => by
        obtain ⟨sts, hk1, hk2⟩ := henv (k + 1) (by simpa using Nat.succ_lt_succ hk)
        refine ⟨sts, ?_, hk2⟩
        have : i + 1 + k = i + (k + 1) := by omega
        rw [this]
        exact hk1)
    refine ⟨s2, f2, hrun, ?_⟩
    have hcount := countStatuses_sum statuses
    simp only [List.map_cons, List.sum_cons]
    simp only [List.get] at hlen
    omega

lemma aggregate_foldl (results : List (Except Unit (Nat × Nat))) :
    ∀ (a b : Nat),
      results.foldl
        (fun acc r =>
          match r with
          | Except.ok sf => (acc.1 + sf.1, acc.2 + sf.2)
          | Except.error _ => (acc.1, acc.2 + 1))
        (a, b) =
      (a + (results.map groupSucceeded).sum, b + (results.map groupFailed).sum) := by
  induction results with
  | nil => intro a b; simp
  | cons r rest ih =>
    intro a b
    cases r with
    | ok sf =>
      simp only [List.foldl_cons, ih, List.map_cons, List.sum_cons,
        groupSucceeded, groupFailed]
      exact Prod.ext (by omega) (by omega)
    | error e =>
      simp only [List.foldl_cons, ih, List.map_cons, List.sum_cons,
        groupSucceeded, groupFailed]
      exact Prod.ext (by omega) (by omega)

/-- Counterexample to C3 as stated: 21 messages under one action make two
chunks; the first chunk fully succeeds (20 statuses of 200) and the second
suffers a whole-batch transport failure, yet process_messages_batch returns
an error for the entire group instead of returning the 20 successes
accumulated from the first chunk. -/
theorem c3_counterexample :
    process_messages_batch
        (fun i => if i = 0 then ChunkResult.ok (List.replicate 20 200)
                  else ChunkResult.transportFail)
        (List.replicate 21 msg0) =
      Except.error () ∧
    (List.replicate 21 msg0).length = 21 := by
  exact ⟨rfl, rfl⟩

/-- C3 (amended): a transport-level failure on any chunk of an action group
makes the whole group call return an error — earlier chunks' counts are
discarded and later chunks are not issued — while the orchestrator counts
the erroring group as one failure and still accumulates every other action
group's outcome into the summary totals. -/
theorem c3_amended_group_failure_isolation :
    (∀ (env : Nat → ChunkResult) (messages : List Message),
      (∃ k, k < (chunksOf20 messages).length ∧
        env k = ChunkResult.transportFail) →
      process_messages_batch env messages = Except.error ())
    ∧ (∀ results : List (Except Unit (Nat × Nat)),
      aggregate results =
        ((results.map groupSucceeded).sum, (results.map groupFailed).sum)) := by
  constructor
  · intro env messages ⟨k, hk, hfail⟩
    exact runBatchChunks_error env _ 0 0 0 ⟨k, hk, by simpa using hfail⟩
  · intro results
    simpa [aggregate] using aggregate_foldl results 0 0

/-- Witness for C3 (amended) at a one-chunk group whose only batch call
transport-fails. -/
theorem c3_amended_group_failure_isolation_witness :
    process_messages_batch (fun _ => ChunkResult.transportFail) [msg0] =
      Except.error () :=
  c3_amended_group_failure_isolation.1 _ _ ⟨0, by decide, rfl⟩

/-- C4: for N messages under one action the mutator issues exactly
ceil(N/20) batch calls; each carries one sub-request per message of its
chunk, hence at most 20; each sub-response counts as succeeded exactly when
its status lies in 200..300 and as failed otherwise; and when every chunk's
batch call comes back with one status per sub-request, the call returns
Ok(succeeded, failed) with succeeded + failed = N. -/
theorem c4_chunking_and_outcome_accounting (operation : BatchOperation)
    (env : Nat → ChunkResult) (messages : List Message) :
    (chunksOf20 messages).length = (messages.length + 19) / 20
    ∧ (∀ c ∈ chunksOf20 messages,
        (buildBatchRequests operation c).length = c.length ∧ c.length ≤ 20)
    ∧ (∀ statuses, countStatuses statuses =
        ((statuses.filter inSuccessRange).length,
         (statuses.filter fun st => !inSuccessRange st).length))
    ∧ ((∀ i, (h : i < (chunksOf20 messages).length) → ∃ statuses,
          env i = ChunkResult.ok statuses ∧
          statuses.length = ((chunksOf20 messages).get ⟨i, h⟩).length) →
        ∃ s f, process_messages_batch env messages = Except.ok (s, f) ∧
          s + f = messages.length) := by
  refine ⟨chunksOfAux_length _ _ (Nat.le_refl _), ?_, countStatuses_eq, ?_⟩
  · intro c hc
    constructor
    · simp [buildBatchRequests]
    · exact chunksOfAux_mem_length _ _ _ hc
  · intro henv
    obtain ⟨s, f, hrun, hsum⟩ :=
      runBatchChunks_ok env (chunksOf20 messages) 0 0 0
        (fun k hk => by simpa using henv k hk)
    refine ⟨s, f, hrun, ?_⟩
    rw [hsum]
    have hjoin : ((chunksOf20 messages).map List.length).sum =
        messages.length := by
      rw [← List.length_flatten]
      rw [show (chunksOf20 messages).flatten = messages from
        chunksOfAux_join _ _ (Nat.le_refl _)]
    omega

/-- Witness for C4 on a single message with one all-success chunk. -/
theorem c4_chunking_and_outcome_accounting_witness :
    ∃ s f, process_messages_batch (fun _ => ChunkResult.ok [204]) [msg0] =
      Except.ok (s, f) ∧
      s + f = ([msg0]).length :=
  (c4_chunking_and_outcome_accounting BatchOperation.Archive _ _).2.2.2
    (fun i h => by
      obtain rfl := Nat.lt_one_iff.mp h
      exact ⟨[204], rfl, rfl⟩)

/-- Outcome of one fetch_messages_page call: a transport-level failure
(non-success status or request error, which the source bails on), or a page
of messages together with whether an @odata.nextLink continuation was
returned. -/
inductive PageResult where
  | fail
  | page (msgs : List Message) (hasNext : Bool)
deriving DecidableEq, Repr

/-- The pagination loop of CleanCommand::execute built on
fetch_messages_page: starting from page index 0, pages accumulate in
arrival order while a continuation link is returned, and a page failure
aborts the whole fetch.  fuel bounds the number of page requests still
allowed; none means the loop did not finish within fuel. -/
def fetchAllAux (env : Nat → PageResult) :
    Nat → Nat → List Message → Option (Except Unit (List Message))
  | 0, _, _ => none
  | fuel + 1, i, acc =>
    match env i with
    | PageResult.fail => some (Except.error ())
    | PageResult.page msgs hasNext =>
      if hasNext then fetchAllAux env fuel (i + 1) (acc ++ msgs)
      else some (Except.ok (acc ++ msgs))

/-- CleanCommand::execute from the fetch up to rule evaluation: fetch all
pages, then hand the message list to the rule engine; a fetch error
propagates and no list reaches evaluation. -/
def cleanPipeline (env : Nat → PageResult) (fuel : Nat) (rules : List Rule) :
    Option (Except Unit (List (Message × Rule))) :=
  match fetchAllAux env fuel 0 [] with
  | none => none
  | some (Except.error e) => some (Except.error e)
  | some (Except.ok msgs) => some (Except.ok (matchedMessages rules msgs))

/-- src/commands/clean.rs: per_page is the max_messages flag value,
defaulting to 50, and is used as the page-size parameter of the list call. -/
def perPage (max_messages : Option Nat) : Nat := max_messages.getD 50

/-- How many messages a page response carries. -/
def pageLen : PageResult → Nat
  | PageResult.fail => 0
  | PageResult.page msgs _ => msgs.length

lemma fetchAllAux_fail (env : Nat → PageResult) (ps : Nat → List Message) :
    ∀ (k i : Nat) (acc : List Message) (fuel : Nat),
      (∀ j, j < k → env (i + j) = PageResult.page (ps (i + j)) true) →
      env (i + k) = PageResult.fail → k + 1 ≤ fuel →
      fetchAllAux env fuel i acc = some (Except.error ()) := by
  intro k
  induction k with
  | zero =>
    intro i acc fuel _ hfail hfuel
    obtain ⟨fuel1, rfl⟩ : ∃ fuel1, fuel = fuel1 + 1 :=
      ⟨fuel - 1, by omega⟩
    rw [Nat.add_zero] at hfail
    simp [fetchAllAux, hfail]
  | succ k ih =>
    intro i acc fuel hpages hfail hfuel
    obtain ⟨fuel1, rfl⟩ : ∃ fuel1, fuel = fuel1 + 1 :=
      ⟨fuel - 1, by omega⟩
    have h0 : env i = PageResult.page (ps i) true := by
      have := hpages 0 (Nat.succ_pos k)
      rwa [Nat.add_zero] at this
    simp only [fetchAllAux, h0, if_pos rfl]
    refine ih (i + 1) (acc ++ ps i) fuel1 ?_ ?_ (by omega)
    · intro j hj
      have := hpages (j + 1) (Nat.succ_lt_succ hj)
      have heq : i + (j + 1) = i + 1 + j := by omega
      rwa [heq] at this
    · have heq : i + (k + 1) = i + 1 + k := by omega
      rwa [heq] at hfail

lemma fetchAllAux_ok (env : Nat → PageResult) (ps : Nat → List Message) :
    ∀ (k i : Nat) (acc last : List Message) (fuel : Nat),
      (∀ j, j < k → env (i + j) = PageResult.page (ps (i + j)) true) →
      env (i + k) = PageResult.page last false → k + 1 ≤ fuel →
      fetchAllAux env fuel i acc =
        some (Except.ok
          (acc ++ ((List.range k).map fun j => ps (i + j)).flatten ++ last)) := by
  intro k
  induction k with
  | zero =>
    intro i acc last fuel _ hlast hfuel
    obtain ⟨fuel1, rfl⟩ : ∃ fuel1, fuel = fuel1 + 1 :=
      ⟨fuel - 1, by omega⟩
    rw [Nat.add_zero] at hlast
    simp [fetchAllAux, hlast]
  | succ k ih =>
    intro i acc last fuel hpages hlast hfuel
    obtain ⟨fuel1, rfl⟩ : ∃ fuel1, fuel = fuel1 + 1 :=
      ⟨fuel - 1, by omega⟩
    have h0 : env i = PageResult.page (ps i) true := by
      have := hpages 0 (Nat.succ_pos k)
      rwa [Nat.add_zero] at this
    simp only [fetchAllAux, h0, if_pos rfl]
    have hrec := ih (i + 1) (acc ++ ps i) last fuel1
      (fun j hj => by
        have := hpages (j + 1) (Nat.succ_lt_succ hj)
        have heq : i + (j + 1) = i + 1 + j := by omega
        rwa [heq] at this)
      (by
        have heq : i + (k + 1) = i + 1 + k := by omega
        rwa [heq] at hlast)
      (by omega)
    rw [hrec]
    have hmaps : List.map ((fun j => ps (i + j)) ∘ Nat.succ) (List.range k) =
        List.map (fun j => ps (i + 1 + j)) (List.range k) := by
      apply List.map_congr_left
      intro a _
      simp only [Function.comp_apply]
      congr 1
      omega
    have hpage : ((List.range (k + 1)).map fun j => ps (i + j)).flatten =
        ps i ++ ((List.range k).map fun j => ps (i + 1 + j)).flatten := by
      rw [List.range_succ_eq_map, List.map_cons, List.flatten_cons,
        List.map_map, hmaps, Nat.add_zero]
    rw [hpage]
    simp [List.append_assoc]

/-- C6: if every page before index k returns a page with a continuation and
page k fails, the whole fetch returns an error and rule evaluation receives
nothing; if page k instead returns its messages with no continuation, the
fetch succeeds with the concatenation of all pages in arrival order. -/
theorem c6_pagination_fail_fast_and_concat (env : Nat → PageResult)
    (ps : Nat → List Message) (k : Nat) (rules : List Rule)
    (hpages : ∀ j, j < k → env j = PageResult.page (ps j) true) :
    (env k = PageResult.fail →
      ∀ fuel, k + 1 ≤ fuel →
        fetchAllAux env fuel 0 [] = some (Except.error ()) ∧
        cleanPipeline env fuel rules = some (Except.error ()))
    ∧ (∀ last, env k = PageResult.page last false →
      ∀ fuel, k + 1 ≤ fuel →
        fetchAllAux env fuel 0 [] =
          some (Except.ok (((List.range k).map ps).flatten ++ last)) ∧
        cleanPipeline env fuel rules =
          some (Except.ok
            (matchedMessages rules (((List.range k).map ps).flatten ++ last)))) := by
  constructor
  · intro hfail fuel hfuel
    have hfetch : fetchAllAux env fuel 0 [] = some (Except.error ()) := by
      refine fetchAllAux_fail env ps k 0 [] fuel ?_ ?_ hfuel
      · intro j hj
        simpa using hpages j hj
      · simpa using hfail
    exact ⟨hfetch, by simp [cleanPipeline, hfetch]⟩
  · intro last hlast fuel hfuel
    have hfetch : fetchAllAux env fuel 0 [] =
        some (Except.ok (((List.range k).map ps).flatten ++ last)) := by
      have := fetchAllAux_ok env ps k 0 [] last fuel
        (fun j hj => by simpa using hpages j hj)
        (by simpa using hlast) hfuel
      simpa using this
    exact ⟨hfetch, by simp [cleanPipeline, hfetch]⟩

/-- Witness for C6 at a two-page provider whose second page fails. -/
theorem c6_pagination_fail_fast_and_concat_witness :
    fetchAllAux
      (fun i => if i = 0 then PageResult.page [msgA] true else PageResult.fail)
      2 0 [] = some (Except.error ()) :=
  ((c6_pagination_fail_fast_and_concat _ (fun _ => [msgA]) 1 []
      (fun j hj => by
        obtain rfl := Nat.lt_one_iff.mp hj
        rfl)).1
    rfl 2 (Nat.le_refl 2)).1

/-- C7 is a code bug: the max_messages flag, documented as the maximum
number of messages to process, only sets the page size of the list call;
the pagination loop follows every continuation link, so with
max_messages = 1 and a provider holding two messages (one per page, each
page respecting the requested size), the run fetches and considers 2
messages. -/
theorem c7_max_messages_is_only_a_page_size :
    perPage (some 1) = 1 ∧
    (∀ i, pageLen
      (if i = 0 then PageResult.page [msgA] true
       else PageResult.page [msgB] false) ≤ perPage (some 1)) ∧
    fetchAllAux
      (fun i => if i = 0 then PageResult.page [msgA] true
                else PageResult.page [msgB] false)
      2 0 [] = some (Except.ok [msgA, msgB]) ∧
    ([msgA, msgB]).length = 2 := by
  refine ⟨rfl, ?_, rfl, rfl⟩
  intro i
  by_cases h : i = 0 <;> simp [pageLen, perPage, h]

/-- src/auth.rs TokenCache, with expires_at as an absolute timestamp. -/
structure TokenCache where
  access_token : Str
  refresh_token : Str
  expires_at : Int
deriving DecidableEq, Repr

/-- src/auth.rs TokenCache::is_expired: now_utc() >= expires_at, with the
current time passed explicitly. -/
def TokenCache.is_expired (tc : TokenCache) (now : Int) : Bool :=
  decide (tc.expires_at ≤ now)

/-- The fields of oauth2 BasicTokenResponse that
TokenCache::from_token_response reads: the refresh token and lifetime are
optional in the provider's response. -/
structure BasicTokenResponse where
  access_token : Str
  refresh_token : Option Str
  expires_in : Option Nat
deriving DecidableEq, Repr

/-- src/auth.rs TokenCache::from_token_response: lifetime defaults to 3600
seconds; the refresh token is taken with unwrap, which panics when the
response carries none — the panic is modelled as the none result. -/
def TokenCache.from_token_response (now : Int) (token : BasicTokenResponse) :
    Option TokenCache :=
  let expires_in := token.expires_in.getD 3600
  match token.refresh_token with
  | none => none
  | some rt =>
      some { access_token := token.access_token, refresh_token := rt,
             expires_at := now + expires_in }

/-- src/auth.rs Auth::ensure_valid_token: stored is the credential loaded
from the cache file (none when absent), refreshOutcome abstracts the
provider's answer to a refresh-token exchange, already converted to a new
TokenCache.  Returns the result, whether a refresh call was made, and the
resulting on-disk cache state. -/
def ensure_valid_token (now : Int) (stored : Option TokenCache)
    (refreshOutcome : Except Unit TokenCache) :
    Except Unit TokenCache × Bool × Option TokenCache :=
  match stored with
  | none => (Except.error (), false, none)
  | some tc =>
    if tc.is_expired now then
      match refreshOutcome with
      | Except.ok fresh => (Except.ok fresh, true, some fresh)
      | Except.error _ => (Except.error (), true, some tc)
    else (Except.ok tc, false, some tc)

/-- C5: a credential is treated as expired exactly when now >= expires_at
(so the expires_at = now boundary counts as expired); an expired credential
triggers a refresh whose successful result is returned and replaces the
cache; an unexpired credential is returned unchanged with no refresh call
and an unchanged cache. -/
theorem c5_expiry_boundary_refresh_behaviour (now : Int) (tc : TokenCache)
    (refreshOutcome : Except Unit TokenCache) :
    (tc.is_expired now = true ↔ tc.expires_at ≤ now)
    ∧ (tc.expires_at ≤ now → ∀ fresh, refreshOutcome = Except.ok fresh →
        ensure_valid_token now (some tc) refreshOutcome =
          (Except.ok fresh, true, some fresh))
    ∧ (now < tc.expires_at →
        ensure_valid_token now (some tc) refreshOutcome =
          (Except.ok tc, false, some tc)) := by
  refine ⟨by simp [TokenCache.is_expired], ?_, ?_⟩
  · intro h fresh hr
    subst hr
    simp [ensure_valid_token, TokenCache.is_expired, h]
  · intro h
    have hne : ¬ tc.expires_at ≤ now := not_le.mpr h
    simp [ensure_valid_token, TokenCache.is_expired, hne]

/-- Witness for C5 at the boundary expires_at = now = 5: the credential is
refreshed and the cache replaced. -/
theorem c5_expiry_boundary_refresh_behaviour_witness :
    ensure_valid_token 5
        (some { access_token := "old".toList, refresh_token := "r".toList,
                expires_at := 5 })
        (Except.ok { access_token := "new".toList,
                     refresh_token := "r2".toList, expires_at := 9 }) =
      (Except.ok { access_token := "new".toList, refresh_token := "r2".toList,
                   expires_at := 9 },
       true,
       some { access_token := "new".toList, refresh_token := "r2".toList,
              expires_at := 9 }) :=
  (c5_expiry_boundary_refresh_behaviour 5 _ _).2.1 (by decide) _ rfl

/-- C10: constructing a cached credential from a provider token response
panics (modelled: returns none) exactly when the response carries no
refresh token; hence login and silent refresh complete without panic only
when the provider includes a refresh token. -/
theorem c10_from_token_response_panics_iff_no_refresh_token
    (now : Int) (token : BasicTokenResponse) :
    TokenCache.from_token_response now token = none ↔
      token.refresh_token = none := by
  cases h : token.refresh_token <;>
    simp [TokenCache.from_token_response, h]

end Mailsweep
